import Mathlib

/-!
Verification development for the index registry and schema model of an
embedded search-engine storage layer (meilidb-schema and the database
registry of meilidb-data).

The Rust source is embedded shallowly:
  * `HashMap` / `IndexMap` values are modelled as association lists in
    insertion order; lookup is first-match (keys are unique whenever the
    source guarantees it, which the theorems track explicitly).
  * the `u16` attribute id (`SchemaAttr(pub u16)`) is modelled as a `Nat`
    reduced mod 2^16 exactly where the source casts with `as u16`.
  * Rust `panic!`-style aborts are modelled as `Option.none` results,
    out-of-range `Vec` indexing as `List.getElem?` misses.
-/

namespace Meili

/-- Bit-width bound of the `u16` attribute id: 2^16. -/
def u16Bound : Nat := 65536

/-! ## SchemaProps (meilidb-schema/src/lib.rs, lines 11-51) -/

/-- `SchemaProps`: three independent boolean flags. -/
structure SchemaProps where
  displayed : Bool
  indexed : Bool
  ranked : Bool
deriving DecidableEq, Repr

/-- `DISPLAYED`: only the `displayed` flag set. -/
def DISPLAYED : SchemaProps := { displayed := true, indexed := false, ranked := false }

/-- `INDEXED`: only the `indexed` flag set. -/
def INDEXED : SchemaProps := { displayed := false, indexed := true, ranked := false }

/-- `RANKED`: only the `ranked` flag set. -/
def RANKED : SchemaProps := { displayed := false, indexed := false, ranked := true }

/-- `SchemaProps::is_displayed`. -/
def SchemaProps.is_displayed (p : SchemaProps) : Bool := p.displayed

/-- `SchemaProps::is_indexed`. -/
def SchemaProps.is_indexed (p : SchemaProps) : Bool := p.indexed

/-- `SchemaProps::is_ranked`. -/
def SchemaProps.is_ranked (p : SchemaProps) : Bool := p.ranked

/-- `impl BitOr for SchemaProps`: field-wise boolean or. -/
def SchemaProps.bitor (p q : SchemaProps) : SchemaProps :=
  { displayed := p.displayed || q.displayed
  , indexed := p.indexed || q.indexed
  , ranked := p.ranked || q.ranked }

/-! ## SchemaAttr (meilidb-schema/src/lib.rs, lines 167-191) -/

/-- `SchemaAttr(pub u16)`: the numeric attribute id.  The wrapped value is a
`Nat`; every place the source truncates with `as u16` the model reduces
mod `u16Bound`. -/
structure SchemaAttr where
  val : Nat
deriving DecidableEq, Repr

/-! ## SchemaBuilder (meilidb-schema/src/lib.rs, lines 53-87) -/

/-- `SchemaBuilder`: identifier plus insertion-ordered attribute map
(`IndexMap<String, SchemaProps>`, modelled as an association list in
insertion order; the `IndexMap` keeps keys unique). -/
structure SchemaBuilder where
  identifier : String
  attributes : List (String × SchemaProps)
deriving DecidableEq, Repr

/-- First-match association-list lookup: the model of `HashMap::get` /
`IndexMap::get` on maps whose keys are unique. -/
def lookupName {α : Type} (l : List (String × α)) (name : String) : Option α :=
  match l with
  | [] => none
  | (k, v) :: t => if k = name then some v else lookupName t name

/-- `SchemaBuilder::with_identifier`. -/
def SchemaBuilder.with_identifier (name : String) : SchemaBuilder :=
  { identifier := name, attributes := [] }

/-- `SchemaBuilder::new_attribute`: records the pre-insertion length, aborts
(`none`, modelling the source's fatal abort "Field already inserted.") when
the name is already present, otherwise appends the entry and returns
`SchemaAttr(len as u16)`. -/
def SchemaBuilder.new_attribute (b : SchemaBuilder) (name : String)
    (props : SchemaProps) : Option (SchemaBuilder × SchemaAttr) :=
  let len := b.attributes.length
  if (lookupName b.attributes name).isSome then
    none
  else
    some ({ b with attributes := b.attributes ++ [(name, props)] },
          ⟨len % u16Bound⟩)

/-- Declaring a whole list of attributes through `new_attribute`, aborting
(`none`) as soon as one declaration aborts. -/
def SchemaBuilder.declareAll (b : SchemaBuilder) :
    List (String × SchemaProps) → Option SchemaBuilder
  | [] => some b
  | (name, props) :: rest =>
    match b.new_attribute name props with
    | none => none
    | some (b', _) => b'.declareAll rest

/-! ## Schema (meilidb-schema/src/lib.rs, lines 75-148) -/

/-- The body of `SchemaBuilder::build`'s loop for the `attrs` hash map:
entry `i` of the builder gets id `SchemaAttr(i as u16)`. -/
def buildAttrs : Nat → List (String × SchemaProps) → List (String × Nat)
  | _, [] => []
  | i, (name, _) :: rest => (name, i % u16Bound) :: buildAttrs (i + 1) rest

/-- `Schema` (the `InnerSchema` payload): `attrs` is the name-to-id hash map,
`propsData` the id-indexed `props: Vec<(String, SchemaProps)>`. -/
structure Schema where
  identifier : String
  attrs : List (String × Nat)
  propsData : List (String × SchemaProps)
deriving DecidableEq, Repr

/-- `SchemaBuilder::build`: entry `i` of the builder yields
`attrs[name] = SchemaAttr(i as u16)` and `props[i] = (name, prop)`. -/
def SchemaBuilder.build (b : SchemaBuilder) : Schema :=
  { identifier := b.identifier
  , attrs := buildAttrs 0 b.attributes
  , propsData := b.attributes }

/-- `Schema::props`: index the `props` vector by the id; `none` models the
source's out-of-range indexing abort. -/
def Schema.props (s : Schema) (attr : SchemaAttr) : Option SchemaProps :=
  (s.propsData[attr.val]?).map (fun p => p.2)

/-- `Schema::attribute_name`: the name component of `props[attr.0]`; `none`
models the source's out-of-range indexing abort. -/
def Schema.attribute_name (s : Schema) (attr : SchemaAttr) : Option String :=
  (s.propsData[attr.val]?).map (fun p => p.1)

/-- `Schema::attribute`: lookup in the `attrs` hash map; absence is a normal
`none`. -/
def Schema.attributeId (s : Schema) (name : String) : Option SchemaAttr :=
  (lookupName s.attrs name).map (fun v => ⟨v⟩)

/-- `Schema::identifier_name`. -/
def Schema.identifier_name (s : Schema) : String := s.identifier

/-! ## Serialization of a Schema via its builder form
(meilidb-schema/src/lib.rs, lines 101-165) -/

/-- `BTreeMap<u16, _>::insert` on a key-sorted association list: keeps the
list sorted by key, replacing the value when the key is already present. -/
def btInsert {α : Type} (k : Nat) (v : α) :
    List (Nat × α) → List (Nat × α)
  | [] => [(k, v)]
  | (k', v') :: t =>
    if k < k' then (k, v) :: (k', v') :: t
    else if k = k' then (k, v) :: t
    else (k', v') :: btInsert k v t

/-- `Schema::attributes_ordered`: iterate the `attrs` map (the model fixes
insertion order as the iteration order of the source's `HashMap`, whose
order is unspecified; the theorems below either hold for every order or
use only order-independent facts), fetch each id's props from the props
vector, collect into a `BTreeMap` keyed by the id, then emit values in
ascending id order.  For any schema produced by `build` the id is always
in range, so the `none` arm of the in-range fetch is dead there. -/
def Schema.attributes_ordered (s : Schema) : List (String × SchemaProps) :=
  let ordered := s.attrs.foldl
    (fun acc p =>
      match s.propsData[p.2]? with
      | some q => btInsert p.2 (p.1, q.2) acc
      | none => acc) []
  ordered.map (fun q => q.2)

/-- `Schema::to_builder`: identifier plus `attributes_ordered`. -/
def Schema.to_builder (s : Schema) : SchemaBuilder :=
  { identifier := s.identifier, attributes := s.attributes_ordered }

/-!
The three wire formats are external serde back ends (bincode, toml,
serde_json); only their interface shape is specified.  Each is modelled
from the spec as an encoder/decoder pair over the builder shape
`{identifier: string, attributes: ordered-mapping<name, flags>}`:
a compact order-dependent token stream (binary), a structured key-value
document (textual), and a JSON-like value tree.  `Serialize for Schema`
is `to_builder` then the format encoder; `Deserialize` is the format
decoder then `SchemaBuilder::build` (lines 150-165 of the source).
-/

/-- Modelled from the spec: one token of the compact binary form (bincode
collaborator) — a flat, order-dependent stream without field names. -/
inductive BinTok where
  | nat (n : Nat)
  | str (s : String)
  | flag (b : Bool)
deriving DecidableEq, Repr

/-- Modelled from the spec: compact binary encoding of one attribute entry:
name, then the three flags in declaration order. -/
def encodeBinEntry (e : String × SchemaProps) : List BinTok :=
  [BinTok.str e.1, BinTok.flag e.2.displayed, BinTok.flag e.2.indexed,
   BinTok.flag e.2.ranked]

/-- Modelled from the spec: compact binary encoding of a builder:
identifier, entry count, then the entries in declaration order. -/
def encodeBin (b : SchemaBuilder) : List BinTok :=
  BinTok.str b.identifier :: BinTok.nat b.attributes.length ::
    (b.attributes.map encodeBinEntry).flatten

/-- Modelled from the spec: binary decoder for `n` attribute entries. -/
def decodeBinEntries : Nat → List BinTok → Option (List (String × SchemaProps))
  | 0, [] => some []
  | 0, _ :: _ => none
  | _ + 1, [] => none
  | n + 1, BinTok.str name :: BinTok.flag d :: BinTok.flag i ::
      BinTok.flag r :: rest =>
    (decodeBinEntries n rest).map
      (fun l => (name, { displayed := d, indexed := i, ranked := r }) :: l)
  | _ + 1, _ :: _ => none

/-- Modelled from the spec: binary decoder for a builder. -/
def decodeBin : List BinTok → Option SchemaBuilder
  | BinTok.str ident :: BinTok.nat n :: rest =>
    (decodeBinEntries n rest).map
      (fun l => { identifier := ident, attributes := l })
  | _ => none

/-- Modelled from the spec: the structured textual form (toml collaborator):
an identifier line plus one section per attribute, each section an ordered
list of flag-name/value pairs; absent flags default to false on decode. -/
structure TextDoc where
  identifier : String
  sections : List (String × List (String × Bool))
deriving DecidableEq, Repr

/-- Modelled from the spec: textual encoding writes all three flags. -/
def encodeText (b : SchemaBuilder) : TextDoc :=
  { identifier := b.identifier
  , sections := b.attributes.map
      (fun e => (e.1, [("displayed", e.2.displayed), ("indexed", e.2.indexed),
                       ("ranked", e.2.ranked)])) }

/-- Modelled from the spec: a flag absent from a section decodes to false
(the `#[serde(default)]` on each `SchemaProps` field). -/
def decodeFlags (kvs : List (String × Bool)) : SchemaProps :=
  { displayed := (lookupName kvs "displayed").getD false
  , indexed := (lookupName kvs "indexed").getD false
  , ranked := (lookupName kvs "ranked").getD false }

/-- Modelled from the spec: textual decoder for a builder. -/
def decodeText (d : TextDoc) : Option SchemaBuilder :=
  some { identifier := d.identifier
       , attributes := d.sections.map (fun sec => (sec.1, decodeFlags sec.2)) }

/-- Modelled from the spec: the JSON-like value tree (serde_json
collaborator); objects keep their document order. -/
inductive Jval where
  | bool (b : Bool)
  | str (s : String)
  | obj (fields : List (String × Jval))

/-- Modelled from the spec: JSON encoding of one props record (all three
flags written). -/
def encodeJsonProps (p : SchemaProps) : Jval :=
  Jval.obj [("displayed", Jval.bool p.displayed),
            ("indexed", Jval.bool p.indexed),
            ("ranked", Jval.bool p.ranked)]

/-- Modelled from the spec: JSON encoding of a builder. -/
def encodeJson (b : SchemaBuilder) : Jval :=
  Jval.obj [("identifier", Jval.str b.identifier),
            ("attributes",
             Jval.obj (b.attributes.map (fun e => (e.1, encodeJsonProps e.2))))]

/-- Modelled from the spec: decode one flag field of a props object;
anything but a boolean is a decode error. -/
def decodeJsonFlag (fields : List (String × Jval)) (key : String) :
    Option Bool :=
  match lookupName fields key with
  | none => some false
  | some (Jval.bool b) => some b
  | some _ => none

/-- Modelled from the spec: decode a props record. -/
def decodeJsonProps : Jval → Option SchemaProps
  | Jval.obj fields =>
    match decodeJsonFlag fields "displayed", decodeJsonFlag fields "indexed",
        decodeJsonFlag fields "ranked" with
    | some d, some i, some r =>
      some { displayed := d, indexed := i, ranked := r }
    | _, _, _ => none
  | _ => none

/-- Modelled from the spec: decode the attribute entries in document order. -/
def decodeJsonEntries : List (String × Jval) →
    Option (List (String × SchemaProps))
  | [] => some []
  | (name, v) :: rest =>
    match decodeJsonProps v, decodeJsonEntries rest with
    | some p, some l => some ((name, p) :: l)
    | _, _ => none

/-- Modelled from the spec: JSON decoder for a builder. -/
def decodeJson : Jval → Option SchemaBuilder
  | Jval.obj [(k1, Jval.str ident), (k2, Jval.obj entries)] =>
    if k1 = "identifier" ∧ k2 = "attributes" then
      (decodeJsonEntries entries).map
        (fun l => { identifier := ident, attributes := l })
    else none
  | _ => none

/-- `impl Serialize for Schema` through the binary back end. -/
def Schema.serializeBin (s : Schema) : List BinTok := encodeBin s.to_builder

/-- `impl Deserialize for Schema` through the binary back end:
decode a builder, then `build`. -/
def Schema.deserializeBin (toks : List BinTok) : Option Schema :=
  (decodeBin toks).map SchemaBuilder.build

/-- `impl Serialize for Schema` through the textual back end. -/
def Schema.serializeText (s : Schema) : TextDoc := encodeText s.to_builder

/-- `impl Deserialize for Schema` through the textual back end. -/
def Schema.deserializeText (d : TextDoc) : Option Schema :=
  (decodeText d).map SchemaBuilder.build

/-- `impl Serialize for Schema` through the JSON back end. -/
def Schema.serializeJson (s : Schema) : Jval := encodeJson s.to_builder

/-- `impl Deserialize for Schema` through the JSON back end. -/
def Schema.deserializeJson (v : Jval) : Option Schema :=
  (decodeJson v).map SchemaBuilder.build

/-! ## The Database registry (meilidb-data/src/database/mod.rs)

External collaborators (sled, bincode, the `Index` constructors of
`index.rs` and the `Error` enum of `error.rs` are not part of the given
source) are modelled from the spec at their interface boundary. -/

/-- Modelled from the spec: the error taxonomy of `error.rs` — store
errors and decode errors, both propagated, never retried. -/
inductive DbError where
  | storeError
  | decodeError
deriving DecidableEq, Repr

/-- Modelled from the spec: the bytes stored under the reserved
`"indexes"` key, abstracted to their decode outcome — either a
well-formed bincode encoding of a name set or corrupt bytes. -/
inductive StoredBytes where
  | encoded (names : List String)
  | corrupt
deriving DecidableEq, Repr

/-- Modelled from the spec: the backing sled store, restricted to the two
regions this core touches — the record under the reserved `"indexes"` key,
and the per-index region holding each created index's persisted schema. -/
structure Store where
  indexesRecord : Option StoredBytes
  schemas : List (String × Schema)
deriving DecidableEq, Repr

/-- `load_indexes` (mod.rs lines 26-31): absent record decodes to the
empty set; corrupt bytes are a decode error; a `HashSet<String>` is
modelled as a `List String` up to membership. -/
def load_indexes (store : Store) : Except DbError (List String) :=
  match store.indexesRecord with
  | none => Except.ok []
  | some (StoredBytes.encoded names) => Except.ok names
  | some StoredBytes.corrupt => Except.error DbError.decodeError

/-- Modelled from the spec: an `Index` handle — bound to its name and
schema; `ctorId` tags which construction event produced it, so that
"same underlying construction" is expressible. -/
structure Index where
  name : String
  schema : Schema
  ctorId : Nat
deriving DecidableEq, Repr

deriving instance DecidableEq for Except

/-- Outcomes of the external collaborators, fixed per run: whether
`Index::new`, `Index::with_schema` and the sled `insert` of
`set_indexes` succeed or fail with a given error. -/
structure Env where
  newResult : Except DbError Unit
  withSchemaResult : Except DbError Unit
  insertResult : Except DbError Unit
deriving DecidableEq, Repr

/-- Modelled from the spec: `Index::new(store, name)` reopens an existing
index's persisted schema; it fails when the collaborator fails or when no
schema is persisted for the name. -/
def Index.new (env : Env) (store : Store) (name : String) (ctorId : Nat) :
    Except DbError Index :=
  match env.newResult with
  | Except.error e => Except.error e
  | Except.ok _ =>
    match lookupName store.schemas name with
    | some sch => Except.ok { name := name, schema := sch, ctorId := ctorId }
    | none => Except.error DbError.decodeError

/-- Modelled from the spec: `Index::with_schema(store, name, schema)`
initializes a brand-new index region with the given schema. -/
def Index.with_schema (env : Env) (store : Store) (name : String)
    (schema : Schema) (ctorId : Nat) : Except DbError (Store × Index) :=
  match env.withSchemaResult with
  | Except.error e => Except.error e
  | Except.ok _ =>
    Except.ok ({ store with schemas := (name, schema) :: store.schemas },
               { name := name, schema := schema, ctorId := ctorId })

/-- The `Database` state: the `RwLock<HashMap<String, Index>>` cache as an
association list, the sled store, and the running count of `Index`
construction events (the model's clock for "how many times an `Index`
was constructed"). -/
structure DbState where
  cache : List (String × Index)
  store : Store
  ctorCount : Nat
deriving DecidableEq, Repr

/-- `Database::indexes` (mod.rs lines 53-55): re-read and decode the
durable name set from the store. -/
def Database.indexes (s : DbState) : Except DbError (List String) :=
  load_indexes s.store

/-- `Database::set_indexes` (mod.rs lines 57-61): encode the set and
overwrite the record under the reserved key; the sled insert may fail. -/
def Database.set_indexes (env : Env) (s : DbState) (value : List String) :
    Except DbError Store :=
  match env.insertResult with
  | Except.error e => Except.error e
  | Except.ok _ =>
    Except.ok { s.store with indexesRecord := some (StoredBytes.encoded value) }

/-- `HashSet::insert`: membership-preserving insertion. -/
def setInsert (name : String) (names : List String) : List String :=
  if name ∈ names then names else name :: names

/-- The write-locked section of `Database::open_index` (mod.rs lines
71-86): re-check the cache entry under the exclusive lock; on a vacant
entry consult `indexes()` — an unknown name is the normal `none` outcome —
otherwise construct the `Index` and insert it into the cache. -/
def Database.openIndexLocked (env : Env) (name : String) (s : DbState) :
    DbState × Except DbError (Option Index) :=
  match lookupName s.cache name with
  | some idx => (s, Except.ok (some idx))
  | none =>
    match Database.indexes s with
    | Except.error e => (s, Except.error e)
    | Except.ok names =>
      if name ∈ names then
        match Index.new env s.store name s.ctorCount with
        | Except.error e => (s, Except.error e)
        | Except.ok idx =>
          ({ s with cache := (name, idx) :: s.cache
                  , ctorCount := s.ctorCount + 1 }, Except.ok (some idx))
      else (s, Except.ok none)

/-- `Database::open_index` (mod.rs lines 63-87): the read-locked fast path
returns the cached clone; on a miss the write-locked section runs. -/
def Database.open_index (env : Env) (name : String) (s : DbState) :
    DbState × Except DbError (Option Index) :=
  match lookupName s.cache name with
  | some idx => (s, Except.ok (some idx))
  | none => Database.openIndexLocked env name s

/-- `Database::create_index` (mod.rs lines 89-108): under the exclusive
lock — an occupied entry is returned unchanged (the schema argument is
ignored); on a vacant entry, construct with the schema, read-modify-write
the durable name set, then insert into the cache. -/
def Database.create_index (env : Env) (name : String) (schema : Schema)
    (s : DbState) : DbState × Except DbError Index :=
  match lookupName s.cache name with
  | some idx => (s, Except.ok idx)
  | none =>
    match Index.with_schema env s.store name schema s.ctorCount with
    | Except.error e => (s, Except.error e)
    | Except.ok (store', idx) =>
      let s' : DbState :=
        { s with store := store', ctorCount := s.ctorCount + 1 }
      match Database.indexes s' with
      | Except.error e => (s', Except.error e)
      | Except.ok names =>
        match Database.set_indexes env s' (setInsert name names) with
        | Except.error e => (s', Except.error e)
        | Except.ok store'' =>
          ({ s' with store := store''
                   , cache := (name, idx) :: s'.cache }, Except.ok idx)

/-! ### Interleaving semantics for concurrent `open_index` callers

The `RwLock` makes the read-locked fast path and the write-locked
section each atomic; a thread running `open_index` is therefore a
two-phase program, and a concurrent execution is an arbitrary
interleaving of these atomic phases. -/

/-- Progress of one thread through `open_index(name)`. -/
inductive ThreadPhase where
  | ready
  | missed
  | finished (r : Except DbError (Option Index))
deriving DecidableEq, Repr

/-- A system configuration: the shared database plus each thread's phase. -/
structure Sys where
  db : DbState
  threads : List ThreadPhase
deriving DecidableEq, Repr

/-- Run one atomic phase of thread `t` (all threads call
`open_index name`); an out-of-range or finished thread id is a no-op. -/
def stepThread (env : Env) (name : String) (sys : Sys) (t : Nat) : Sys :=
  match sys.threads[t]? with
  | none => sys
  | some ThreadPhase.ready =>
    match lookupName sys.db.cache name with
    | some idx =>
      { sys with threads :=
          sys.threads.set t (ThreadPhase.finished (Except.ok (some idx))) }
    | none => { sys with threads := sys.threads.set t ThreadPhase.missed }
  | some ThreadPhase.missed =>
    match Database.openIndexLocked env name sys.db with
    | (db', r) =>
      { db := db', threads := sys.threads.set t (ThreadPhase.finished r) }
  | some (ThreadPhase.finished _) => sys

/-- Run a whole schedule (a list of thread ids) from a configuration. -/
def runSched (env : Env) (name : String) (sched : List Nat) (sys : Sys) :
    Sys :=
  sched.foldl (stepThread env name) sys

/-! ## Basic lemmas about the association-list model -/

theorem lookupName_eq_none {α : Type} (l : List (String × α)) (name : String) :
    lookupName l name = none ↔ name ∉ l.map Prod.fst := by
  induction l with
  | nil => simp [lookupName]
  | cons e t ih =>
    by_cases h : e.1 = name
    · simp [lookupName, h]
    · simp [lookupName, h, ih, Ne.symm h]

theorem lookupName_cons_self {α : Type} (name : String) (v : α)
    (t : List (String × α)) : lookupName ((name, v) :: t) name = some v := by
  simp [lookupName]

/-! ## Claim theorems: SchemaProps algebra -/

/-- Claim C8: the `SchemaProps` OR is commutative, associative and
idempotent, `DISPLAYED | INDEXED | RANKED` has all three flags set, and a
flag is set in `p | q` exactly when it is set in `p` or in `q`. -/
theorem schemaProps_bitor_properties :
    (∀ p q : SchemaProps, p.bitor q = q.bitor p) ∧
    (∀ p q r : SchemaProps, (p.bitor q).bitor r = p.bitor (q.bitor r)) ∧
    (∀ p : SchemaProps, p.bitor p = p) ∧
    ((DISPLAYED.bitor INDEXED).bitor RANKED).is_displayed = true ∧
    ((DISPLAYED.bitor INDEXED).bitor RANKED).is_indexed = true ∧
    ((DISPLAYED.bitor INDEXED).bitor RANKED).is_ranked = true ∧
    (∀ p q : SchemaProps,
      (p.bitor q).is_displayed = (p.is_displayed || q.is_displayed) ∧
      (p.bitor q).is_indexed = (p.is_indexed || q.is_indexed) ∧
      (p.bitor q).is_ranked = (p.is_ranked || q.is_ranked)) := by
  refine ⟨?_, ?_, ?_, rfl, rfl, rfl, ?_⟩
  · intro p q
    simp [SchemaProps.bitor, Bool.or_comm]
  · intro p q r
    simp [SchemaProps.bitor, Bool.or_assoc]
  · intro p
    simp [SchemaProps.bitor]
  · intro p q
    exact ⟨rfl, rfl, rfl⟩

/-! ## Claim theorems: id-indexed lookups -/

/-- Claim C7: on a built schema with `n` attributes, `props` and
`attribute_name` return the declared props/name for every id below `n`,
and abort (out-of-range, modelled as `none`) for every id at or above
`n` — such an id was never assigned by this schema's builder. -/
theorem props_attribute_name_range (b : SchemaBuilder) (attr : Nat) :
    (∀ h : attr < b.attributes.length,
      (b.build).props ⟨attr⟩ = some (b.attributes[attr].2) ∧
      (b.build).attribute_name ⟨attr⟩ = some (b.attributes[attr].1)) ∧
    (b.attributes.length ≤ attr →
      (b.build).props ⟨attr⟩ = none ∧
      (b.build).attribute_name ⟨attr⟩ = none) := by
  constructor
  · intro h
    simp [SchemaBuilder.build, Schema.props, Schema.attribute_name,
      List.getElem?_eq_getElem h]
  · intro h
    simp [SchemaBuilder.build, Schema.props, Schema.attribute_name,
      List.getElem?_eq_none h]

/-- Witness for C7 at a concrete two-attribute schema. -/
theorem props_attribute_name_range_witness :
    ((SchemaBuilder.mk "id" [("alpha", DISPLAYED), ("beta", INDEXED)]).build.props
        ⟨1⟩ = some INDEXED) ∧
    ((SchemaBuilder.mk "id" [("alpha", DISPLAYED), ("beta", INDEXED)]).build.props
        ⟨2⟩ = none) := by
  have h1 := (props_attribute_name_range
    (SchemaBuilder.mk "id" [("alpha", DISPLAYED), ("beta", INDEXED)]) 1).1
    (by decide)
  have h2 := (props_attribute_name_range
    (SchemaBuilder.mk "id" [("alpha", DISPLAYED), ("beta", INDEXED)]) 2).2
    (by decide)
  exact ⟨h1.1, h2.1⟩

/-! ## Claim theorems: the Database registry, sequential behaviour -/

/-- Claim C4: `open_index` on a name that is neither cached nor in the
durable index-name set returns the successful "not found" outcome
(`Ok(None)`) and leaves the whole database state — cache and durable set
included — unchanged. -/
theorem open_index_not_found (env : Env) (name : String) (s : DbState)
    (names : List String)
    (hc : lookupName s.cache name = none)
    (hok : Database.indexes s = Except.ok names)
    (hn : name ∉ names) :
    Database.open_index env name s = (s, Except.ok none) := by
  simp [Database.open_index, Database.openIndexLocked, hc, hok, hn]

/-- Witness for C4: a database with one cached and persisted index
`"books"` and a missing name `"movies"`. -/
theorem open_index_not_found_witness :
    Database.open_index ⟨Except.ok (), Except.ok (), Except.ok ()⟩ "movies"
      ⟨[], ⟨some (StoredBytes.encoded ["books"]), []⟩, 3⟩ =
    (⟨[], ⟨some (StoredBytes.encoded ["books"]), []⟩, 3⟩, Except.ok none) := by
  exact open_index_not_found ⟨Except.ok (), Except.ok (), Except.ok ()⟩
    "movies" ⟨[], ⟨some (StoredBytes.encoded ["books"]), []⟩, 3⟩ ["books"]
    (by rfl) (by rfl) (by decide)

/-- Claim C6: `indexes()` is a function of the backing store alone (two
states with the same store but any caches agree), an absent record under
the reserved key decodes to the empty set as a success, and corrupt
stored bytes yield a decode error. -/
theorem indexes_fresh_from_store :
    (∀ s t : DbState, s.store = t.store →
      Database.indexes s = Database.indexes t) ∧
    (∀ s : DbState, s.store.indexesRecord = none →
      Database.indexes s = Except.ok []) ∧
    (∀ s : DbState, s.store.indexesRecord = some StoredBytes.corrupt →
      Database.indexes s = Except.error DbError.decodeError) := by
  refine ⟨?_, ?_, ?_⟩
  · intro s t h
    simp [Database.indexes, h]
  · intro s h
    simp [Database.indexes, load_indexes, h]
  · intro s h
    simp [Database.indexes, load_indexes, h]

/-- Witness for C6: an empty record decodes to the empty set, a corrupt
record to a decode error, and two states sharing a store agree. -/
theorem indexes_fresh_from_store_witness :
    Database.indexes ⟨[], ⟨none, []⟩, 0⟩ = Except.ok [] ∧
    Database.indexes ⟨[], ⟨some StoredBytes.corrupt, []⟩, 0⟩ =
      Except.error DbError.decodeError ∧
    Database.indexes ⟨[("x", ⟨"x", ⟨"i", [], []⟩, 7⟩)], ⟨none, []⟩, 9⟩ =
      Database.indexes ⟨[], ⟨none, []⟩, 0⟩ := by
  refine ⟨indexes_fresh_from_store.2.1 ⟨[], ⟨none, []⟩, 0⟩ rfl,
    indexes_fresh_from_store.2.2 ⟨[], ⟨some StoredBytes.corrupt, []⟩, 0⟩ rfl,
    indexes_fresh_from_store.1 ⟨[("x", ⟨"x", ⟨"i", [], []⟩, 7⟩)], ⟨none, []⟩, 9⟩
      ⟨[], ⟨none, []⟩, 0⟩ rfl⟩

/-- `create_index` on a cached name returns the cached handle unchanged. -/
theorem create_index_cached (env : Env) (name : String) (sch : Schema)
    (s : DbState) (idx : Index) (h : lookupName s.cache name = some idx) :
    Database.create_index env name sch s = (s, Except.ok idx) := by
  unfold Database.create_index
  simp [h]

/-- Claim C3: once a `create_index` call has returned a handle, a second
`create_index` for the same name — with any schema and any collaborator
outcomes — returns that same handle and changes nothing: the second
schema argument has no observable effect on the cache, the created
index, or the durable index-name set. -/
theorem create_index_first_writer_wins (env1 env2 : Env) (name : String)
    (sch1 sch2 : Schema) (s : DbState) (idx : Index)
    (h : (Database.create_index env1 name sch1 s).2 = Except.ok idx) :
    Database.create_index env2 name sch2
      (Database.create_index env1 name sch1 s).1 =
      ((Database.create_index env1 name sch1 s).1, Except.ok idx) := by
  have hcache : lookupName (Database.create_index env1 name sch1 s).1.cache
      name = some idx := by
    unfold Database.create_index at h ⊢
    cases hl : lookupName s.cache name with
    | some idx0 =>
      simp [hl] at h ⊢
      exact h
    | none =>
      simp [hl] at h ⊢
      cases hw : Index.with_schema env1 s.store name sch1 s.ctorCount with
      | error e => simp [hw] at h
      | ok p =>
        simp [hw] at h ⊢
        cases hi : Database.indexes
            { s with store := p.1, ctorCount := s.ctorCount + 1 } with
        | error e => simp [hi] at h
        | ok names =>
          simp [hi] at h ⊢
          cases hs : Database.set_indexes env1
              { s with store := p.1, ctorCount := s.ctorCount + 1 }
              (setInsert name names) with
          | error e => simp [hs] at h
          | ok store2 =>
            simp [hs] at h ⊢
            simp [← h, lookupName_cons_self]
  exact create_index_cached env2 name sch2 _ idx hcache

/-- Witness for C3: create `"books"` twice from an empty database with two
different schemas; the second call returns the first handle unchanged. -/
theorem create_index_first_writer_wins_witness :
    Database.create_index ⟨Except.ok (), Except.ok (), Except.ok ()⟩ "books"
      (SchemaBuilder.mk "other" []).build
      (Database.create_index ⟨Except.ok (), Except.ok (), Except.ok ()⟩
        "books" (SchemaBuilder.mk "id" []).build ⟨[], ⟨none, []⟩, 0⟩).1 =
    ((Database.create_index ⟨Except.ok (), Except.ok (), Except.ok ()⟩
        "books" (SchemaBuilder.mk "id" []).build ⟨[], ⟨none, []⟩, 0⟩).1,
     Except.ok ⟨"books", (SchemaBuilder.mk "id" []).build, 0⟩) := by
  exact create_index_first_writer_wins
    ⟨Except.ok (), Except.ok (), Except.ok ()⟩
    ⟨Except.ok (), Except.ok (), Except.ok ()⟩ "books"
    (SchemaBuilder.mk "id" []).build (SchemaBuilder.mk "other" []).build
    ⟨[], ⟨none, []⟩, 0⟩ ⟨"books", (SchemaBuilder.mk "id" []).build, 0⟩
    (by rfl)

/-- Claim C10: a `create_index` on an uncached name that fails — at the
`Index` construction, at the durable-set decode, or at the durable-set
write — propagates the error and never inserts a cache entry for the
name (and never touches the durable record). -/
theorem create_index_error_no_cache_entry (env : Env) (name : String)
    (sch : Schema) (s : DbState)
    (hc : lookupName s.cache name = none) :
    (∀ e, (Database.create_index env name sch s).2 = Except.error e →
      (Database.create_index env name sch s).1.cache = s.cache ∧
      (Database.create_index env name sch s).1.store.indexesRecord =
        s.store.indexesRecord) ∧
    (∀ e, env.withSchemaResult = Except.error e →
      Database.create_index env name sch s = (s, Except.error e)) ∧
    (env.withSchemaResult = Except.ok () →
      s.store.indexesRecord = some StoredBytes.corrupt →
      (Database.create_index env name sch s).2 =
        Except.error DbError.decodeError) ∧
    (∀ e names, env.withSchemaResult = Except.ok () →
      load_indexes s.store = Except.ok names →
      env.insertResult = Except.error e →
      (Database.create_index env name sch s).2 = Except.error e) := by
  refine ⟨?_, ?_, ?_, ?_⟩
  · intro e
    unfold Database.create_index
    simp [hc]
    cases hw : Index.with_schema env s.store name sch s.ctorCount with
    | error e' => intro h; simp
    | ok p =>
      simp
      cases hi : Database.indexes
          { s with store := p.1, ctorCount := s.ctorCount + 1 } with
      | error e' =>
        intro h
        unfold Index.with_schema at hw
        cases henv : env.withSchemaResult with
        | error e2 => simp [henv] at hw
        | ok u =>
          simp [henv] at hw
          simp [← hw]
      | ok names =>
        simp
        cases hs : Database.set_indexes env
            { s with store := p.1, ctorCount := s.ctorCount + 1 }
            (setInsert name names) with
        | error e' =>
          intro h
          unfold Index.with_schema at hw
          cases henv : env.withSchemaResult with
          | error e2 => simp [henv] at hw
          | ok u =>
            simp [henv] at hw
            simp [← hw]
        | ok store2 => simp
  · intro e he
    unfold Database.create_index Index.with_schema
    simp [hc, he]
  · intro he hcor
    unfold Database.create_index Index.with_schema
    simp [hc, he, Database.indexes, load_indexes, hcor]
  · intro e names he hload hi
    unfold Database.create_index Index.with_schema
    simp [hc, he]
    cases hrec : s.store.indexesRecord with
    | none => simp [Database.indexes, load_indexes, hrec,
        Database.set_indexes, hi]
    | some bytes =>
      cases bytes with
      | encoded l => simp [Database.indexes, load_indexes, hrec,
          Database.set_indexes, hi]
      | corrupt => simp [load_indexes, hrec] at hload

/-- Witness for C10: a failing `Index::with_schema` on an empty database
propagates the store error and inserts nothing. -/
theorem create_index_error_no_cache_entry_witness :
    Database.create_index
      ⟨Except.ok (), Except.error DbError.storeError, Except.ok ()⟩ "books"
      (SchemaBuilder.mk "id" []).build ⟨[], ⟨none, []⟩, 0⟩ =
    (⟨[], ⟨none, []⟩, 0⟩, Except.error DbError.storeError) := by
  exact (create_index_error_no_cache_entry
    ⟨Except.ok (), Except.error DbError.storeError, Except.ok ()⟩ "books"
    (SchemaBuilder.mk "id" []).build ⟨[], ⟨none, []⟩, 0⟩ (by rfl)).2.1
    DbError.storeError (by rfl)

/-! ## Claim theorems: concurrent `open_index` (double-checked locking) -/

/-- Invariant of the concurrent `open_index(name)` scenario started from
`s0` with `name` persisted but not cached: the store is never written;
either nobody has constructed yet (cache and construction count
untouched, no thread finished), or exactly one construction happened
(the single cache entry `⟨name, sch, s0.ctorCount⟩`, count bumped once,
and every finished thread got exactly that handle). -/
def concInv (name : String) (sch : Schema) (s0 : DbState) (sys : Sys) :
    Prop :=
  sys.db.store = s0.store ∧
  ((sys.db.cache = s0.cache ∧ sys.db.ctorCount = s0.ctorCount ∧
      ∀ ph ∈ sys.threads,
        ph = ThreadPhase.ready ∨ ph = ThreadPhase.missed) ∨
   (sys.db.cache = (name, ⟨name, sch, s0.ctorCount⟩) :: s0.cache ∧
      sys.db.ctorCount = s0.ctorCount + 1 ∧
      ∀ ph ∈ sys.threads,
        ph = ThreadPhase.ready ∨ ph = ThreadPhase.missed ∨
        ph = ThreadPhase.finished
              (Except.ok (some ⟨name, sch, s0.ctorCount⟩))))

theorem concInv_step (env : Env) (name : String) (sch : Schema)
    (s0 : DbState) (names : List String)
    (henv : env.newResult = Except.ok ())
    (hsch : lookupName s0.store.schemas name = some sch)
    (hload : load_indexes s0.store = Except.ok names)
    (hmem : name ∈ names)
    (hc : lookupName s0.cache name = none)
    (sys : Sys) (t : Nat)
    (hinv : concInv name sch s0 sys) :
    concInv name sch s0 (stepThread env name sys t) := by
  obtain ⟨hstore, hcase⟩ := hinv
  unfold stepThread
  cases hth : sys.threads[t]? with
  | none => exact ⟨hstore, hcase⟩
  | some ph =>
    have hphmem : ph ∈ sys.threads := List.getElem?_mem hth
    cases ph with
    | ready =>
      cases hcase with
      | inl h1 =>
        obtain ⟨hca, hco, hth1⟩ := h1
        simp only [hca, hc]
        refine ⟨hstore, Or.inl ⟨hca, hco, ?_⟩⟩
        intro ph' hph'
        cases List.mem_or_eq_of_mem_set hph' with
        | inl hmem' => exact hth1 ph' hmem'
        | inr heq => exact Or.inr heq
      | inr h2 =>
        obtain ⟨hca, hco, hth2⟩ := h2
        simp only [hca, lookupName_cons_self]
        refine ⟨hstore, Or.inr ⟨hca, hco, ?_⟩⟩
        intro ph' hph'
        cases List.mem_or_eq_of_mem_set hph' with
        | inl hmem' => exact hth2 ph' hmem'
        | inr heq => exact Or.inr (Or.inr heq)
    | missed =>
      cases hcase with
      | inl h1 =>
        obtain ⟨hca, hco, hth1⟩ := h1
        simp only [Database.openIndexLocked, hca, hc, Database.indexes,
          hstore, hload, hmem, if_pos, Index.new, henv, hsch, hco]
        refine ⟨by simp, Or.inr ⟨by simp, by simp, ?_⟩⟩
        intro ph' hph'
        cases List.mem_or_eq_of_mem_set hph' with
        | inl hmem' =>
          cases hth1 ph' hmem' with
          | inl h => exact Or.inl h
          | inr h => exact Or.inr (Or.inl h)
        | inr heq => exact Or.inr (Or.inr heq)
      | inr h2 =>
        obtain ⟨hca, hco, hth2⟩ := h2
        simp only [Database.openIndexLocked, hca, lookupName_cons_self]
        refine ⟨hstore, Or.inr ⟨hca, hco, ?_⟩⟩
        intro ph' hph'
        cases List.mem_or_eq_of_mem_set hph' with
        | inl hmem' => exact hth2 ph' hmem'
        | inr heq => exact Or.inr (Or.inr heq)
    | finished r => exact ⟨hstore, hcase⟩

theorem concInv_run (env : Env) (name : String) (sch : Schema)
    (s0 : DbState) (names : List String)
    (henv : env.newResult = Except.ok ())
    (hsch : lookupName s0.store.schemas name = some sch)
    (hload : load_indexes s0.store = Except.ok names)
    (hmem : name ∈ names)
    (hc : lookupName s0.cache name = none)
    (sched : List Nat) (sys : Sys)
    (hinv : concInv name sch s0 sys) :
    concInv name sch s0 (runSched env name sched sys) := by
  induction sched generalizing sys with
  | nil => exact hinv
  | cons t rest ih =>
    have hstep := concInv_step env name sch s0 names henv hsch hload hmem hc
      sys t hinv
    simpa [runSched, List.foldl_cons] using ih (stepThread env name sys t) hstep

/-- Claim C5: starting from a database where `name` is durably persisted
(with its schema region readable) but not yet cached, any interleaving of
any number of threads all running `open_index(name)` performs at most one
`Index` construction (the count rises by at most one and the store is
never written), and every thread that completes receives the one
constructed handle `⟨name, sch, s0.ctorCount⟩`. -/
theorem open_index_concurrent_once (env : Env) (name : String)
    (sch : Schema) (s0 : DbState) (names : List String) (N : Nat)
    (sched : List Nat)
    (henv : env.newResult = Except.ok ())
    (hsch : lookupName s0.store.schemas name = some sch)
    (hload : load_indexes s0.store = Except.ok names)
    (hmem : name ∈ names)
    (hc : lookupName s0.cache name = none) :
    (runSched env name sched
        ⟨s0, List.replicate N ThreadPhase.ready⟩).db.ctorCount ≤
      s0.ctorCount + 1 ∧
    (runSched env name sched
        ⟨s0, List.replicate N ThreadPhase.ready⟩).db.store = s0.store ∧
    (∀ (t : Nat) (r : Except DbError (Option Index)),
      (runSched env name sched
        ⟨s0, List.replicate N ThreadPhase.ready⟩).threads[t]? =
          some (ThreadPhase.finished r) →
      r = Except.ok (some ⟨name, sch, s0.ctorCount⟩)) := by
  have hinv0 : concInv name sch s0 ⟨s0, List.replicate N ThreadPhase.ready⟩ :=
    ⟨rfl, Or.inl ⟨rfl, rfl, fun ph hph =>
      Or.inl (List.eq_of_mem_replicate hph)⟩⟩
  have hinv := concInv_run env name sch s0 names henv hsch hload hmem hc
    sched ⟨s0, List.replicate N ThreadPhase.ready⟩ hinv0
  obtain ⟨hstore, hcase⟩ := hinv
  refine ⟨?_, hstore, ?_⟩
  · cases hcase with
    | inl h1 => omega
    | inr h2 => omega
  · intro t r hr
    have hmem' : ThreadPhase.finished r ∈
        (runSched env name sched
          ⟨s0, List.replicate N ThreadPhase.ready⟩).threads :=
      List.getElem?_mem hr
    cases hcase with
    | inl h1 =>
      cases h1.2.2 _ hmem' with
      | inl h => exact absurd h (by simp)
      | inr h => exact absurd h (by simp)
    | inr h2 =>
      cases h2.2.2 _ hmem' with
      | inl h => exact absurd h (by simp)
      | inr h =>
        cases h with
        | inl h => exact absurd h (by simp)
        | inr h =>
          injection h

/-- Witness for C5: two threads interleaved on `"books"` after it was
persisted; the construction count rises from 0 to at most 1. -/
theorem open_index_concurrent_once_witness :
    ("books" ∈ ["books"]) ∧
    (runSched ⟨Except.ok (), Except.ok (), Except.ok ()⟩ "books" [0, 1, 0, 1]
        ⟨⟨[], ⟨some (StoredBytes.encoded ["books"]),
            [("books", (SchemaBuilder.mk "id" []).build)]⟩, 0⟩,
          List.replicate 2 ThreadPhase.ready⟩).db.ctorCount ≤ 0 + 1 :=
  ⟨by decide,
   (open_index_concurrent_once ⟨Except.ok (), Except.ok (), Except.ok ()⟩
     "books" (SchemaBuilder.mk "id" []).build
     ⟨[], ⟨some (StoredBytes.encoded ["books"]),
         [("books", (SchemaBuilder.mk "id" []).build)]⟩, 0⟩
     ["books"] 2 [0, 1, 0, 1] (by rfl) (by rfl) (by rfl) (by decide)
     (by rfl)).1⟩

/-! ## Dense ids and name/id inversion on built schemas -/

theorem buildAttrs_key_lt (entries : List (String × SchemaProps)) :
    ∀ (j : Nat), ∀ p ∈ buildAttrs j entries, p.2 < u16Bound := by
  induction entries with
  | nil => intro j p hp; simp [buildAttrs] at hp
  | cons e t ih =>
    intro j p hp
    simp only [buildAttrs, List.mem_cons] at hp
    cases hp with
    | inl h =>
      subst h
      exact Nat.mod_lt _ (by decide)
    | inr h => exact ih (j + 1) p h

theorem lookupName_buildAttrs (entries : List (String × SchemaProps)) :
    ∀ (j k : Nat) (hk : k < entries.length),
    (entries.map Prod.fst).Nodup →
    lookupName (buildAttrs j entries) entries[k].1 =
      some ((j + k) % u16Bound) := by
  induction entries with
  | nil => intro j k hk; simp at hk
  | cons e t ih =>
    intro j k hk hnd
    simp only [List.map_cons, List.nodup_cons] at hnd
    cases k with
    | zero => simp [buildAttrs, lookupName]
    | succ k =>
      have hk' : k < t.length := by simpa using hk
      have hne : e.1 ≠ t[k].1 := by
        intro hcontra
        exact hnd.1 (hcontra ▸ List.mem_map_of_mem Prod.fst (t.getElem_mem hk'))
      have := ih (j + 1) k hk' hnd.2
      simp only [buildAttrs, lookupName, List.getElem_cons_succ]
      rw [if_neg hne, this]
      have harith : j + 1 + k = j + (k + 1) := by omega
      rw [harith]

theorem lookupName_buildAttrs_some (entries : List (String × SchemaProps)) :
    ∀ (j : Nat) (name : String) (v : Nat),
    lookupName (buildAttrs j entries) name = some v →
    ∃ (k : Nat) (hk : k < entries.length),
      entries[k].1 = name ∧ v = (j + k) % u16Bound := by
  induction entries with
  | nil => intro j name v h; simp [buildAttrs, lookupName] at h
  | cons e t ih =>
    intro j name v h
    simp only [buildAttrs, lookupName] at h
    by_cases he : e.1 = name
    · rw [if_pos he] at h
      refine ⟨0, by simp, by simpa using he, ?_⟩
      simpa using h.symm
    · rw [if_neg he] at h
      obtain ⟨k, hk, hname, hv⟩ := ih (j + 1) name v h
      refine ⟨k + 1, by simpa using Nat.succ_lt_succ hk, by simpa using hname, ?_⟩
      rw [hv]
      have harith : j + 1 + k = j + (k + 1) := by omega
      rw [harith]

theorem declareAll_append (b : SchemaBuilder)
    (entries : List (String × SchemaProps))
    (hnd : ((b.attributes ++ entries).map Prod.fst).Nodup) :
    b.declareAll entries =
      some ⟨b.identifier, b.attributes ++ entries⟩ := by
  induction entries generalizing b with
  | nil => simp [SchemaBuilder.declareAll]
  | cons e t ih =>
    obtain ⟨name, props⟩ := e
    simp only [List.map_append, List.map_cons, List.nodup_append,
      List.nodup_cons, List.disjoint_cons_right] at hnd
    have hnotin : name ∉ b.attributes.map Prod.fst := hnd.2.2.1
    have hlook : lookupName b.attributes name = none :=
      (lookupName_eq_none b.attributes name).mpr hnotin
    have hstep : b.new_attribute name props =
        some (⟨b.identifier, b.attributes ++ [(name, props)]⟩,
              ⟨b.attributes.length % u16Bound⟩) := by
      simp [SchemaBuilder.new_attribute, hlook]
    simp only [SchemaBuilder.declareAll, hstep]
    have hnd' : (((⟨b.identifier, b.attributes ++ [(name, props)]⟩ :
        SchemaBuilder).attributes ++ t).map Prod.fst).Nodup := by
      simp only [List.append_assoc, List.singleton_append, List.map_append,
        List.map_cons, List.nodup_append, List.nodup_cons,
        List.disjoint_cons_right]
      exact hnd
    rw [ih _ hnd']
    simp

/-- Claim C1 (amended: for at most 2^16 attributes — beyond that the
source's `as u16` cast truncates the ids, see the counterexample):
distinct names declared through a builder yield ids exactly `0..n-1` in
declaration order, and `attribute`/`attribute_name` are mutual
inverses. -/
theorem schema_ids_dense_and_inverse (ident : String)
    (entries : List (String × SchemaProps))
    (hnd : (entries.map Prod.fst).Nodup)
    (hlen : entries.length ≤ u16Bound) :
    (SchemaBuilder.with_identifier ident).declareAll entries =
      some ⟨ident, entries⟩ ∧
    (∀ (k : Nat) (hk : k < entries.length),
      (SchemaBuilder.mk ident entries).build.attributeId entries[k].1 =
        some ⟨k⟩) ∧
    (∀ (name : String) (a : SchemaAttr),
      (SchemaBuilder.mk ident entries).build.attributeId name = some a →
      (SchemaBuilder.mk ident entries).build.attribute_name a = some name) ∧
    (∀ a : Nat, a < entries.length →
      ∃ nm, (SchemaBuilder.mk ident entries).build.attribute_name ⟨a⟩ =
          some nm ∧
        (SchemaBuilder.mk ident entries).build.attributeId nm = some ⟨a⟩) := by
  have hdense : ∀ (k : Nat) (hk : k < entries.length),
      (SchemaBuilder.mk ident entries).build.attributeId entries[k].1 =
        some ⟨k⟩ := by
    intro k hk
    have := lookupName_buildAttrs entries 0 k hk hnd
    simp only [Nat.zero_add] at this
    simp [Schema.attributeId, SchemaBuilder.build, this,
      Nat.mod_eq_of_lt (Nat.lt_of_lt_of_le hk hlen)]
  refine ⟨?_, hdense, ?_, ?_⟩
  · have : (([] ++ entries).map (Prod.fst (α := String)
        (β := SchemaProps))).Nodup := by simpa using hnd
    simpa [SchemaBuilder.with_identifier] using
      declareAll_append (SchemaBuilder.with_identifier ident) entries this
  · intro name a ha
    simp only [Schema.attributeId, SchemaBuilder.build,
      Option.map_eq_some'] at ha
    obtain ⟨v, hv, hva⟩ := ha
    obtain ⟨k, hk, hname, hkv⟩ := lookupName_buildAttrs_some entries 0 name v hv
    have hvk : v = k := by
      rw [hkv, Nat.zero_add]
      exact Nat.mod_eq_of_lt (Nat.lt_of_lt_of_le hk hlen)
    subst hvk
    rw [← hva, ← hname]
    simp [Schema.attribute_name, SchemaBuilder.build,
      List.getElem?_eq_getElem hk]
  · intro a ha
    refine ⟨entries[a].1, ?_, hdense a ha⟩
    simp [Schema.attribute_name, SchemaBuilder.build,
      List.getElem?_eq_getElem ha]

/-- Witness for C1 at a concrete two-attribute schema. -/
theorem schema_ids_dense_and_inverse_witness :
    (SchemaBuilder.with_identifier "id").declareAll
        [("alpha", DISPLAYED), ("beta", INDEXED)] =
      some ⟨"id", [("alpha", DISPLAYED), ("beta", INDEXED)]⟩ ∧
    (SchemaBuilder.mk "id"
        [("alpha", DISPLAYED), ("beta", INDEXED)]).build.attributeId "beta" =
      some ⟨1⟩ := by
  have h := schema_ids_dense_and_inverse "id"
    [("alpha", DISPLAYED), ("beta", INDEXED)] (by decide) (by decide)
  exact ⟨h.1, h.2.1 1 (by decide)⟩

/-! ## The u16 truncation boundary

`new_attribute` returns `SchemaAttr(len as u16)` and `build` assigns
`SchemaAttr(i as u16)`; for builders holding 2^16 or more attributes the
cast truncates.  The following family of pairwise distinct names
exhibits it. -/

/-- The string of `i` letters `a`; injective in `i`. -/
def aName (i : Nat) : String := String.mk (List.replicate i 'a')

theorem aName_injective : Function.Injective aName := by
  intro i j h
  have hdata : List.replicate i 'a' = List.replicate j 'a' := by
    injection h
  have := congrArg List.length hdata
  simpa using this

/-- 2^16 + 1 attribute entries with pairwise distinct names. -/
def monsterEntries : List (String × SchemaProps) :=
  (List.range 65537).map (fun i => (aName i, DISPLAYED))

/-- The builder holding `monsterEntries` and the schema it builds. -/
def monsterBuilder : SchemaBuilder := ⟨"id", monsterEntries⟩

def monsterSchema : Schema := monsterBuilder.build

/-- Exactly 2^16 attribute entries with pairwise distinct names. -/
def bigEntries : List (String × SchemaProps) :=
  (List.range 65536).map (fun i => (aName i, DISPLAYED))

/-- A builder already holding exactly 2^16 attributes. -/
def bigBuilder : SchemaBuilder := ⟨"id", bigEntries⟩

theorem monsterEntries_names_nodup :
    (monsterEntries.map Prod.fst).Nodup := by
  have : monsterEntries.map Prod.fst = (List.range 65537).map aName := by
    simp [monsterEntries, List.map_map]
  rw [this]
  exact (List.nodup_range 65537).map aName_injective

theorem monsterEntries_getElem (k : Nat) (hk : k < 65537) :
    ∃ h : k < monsterEntries.length,
      monsterEntries[k] = (aName k, DISPLAYED) := by
  have hlen : monsterEntries.length = 65537 := by
    simp [monsterEntries]
  refine ⟨by omega, ?_⟩
  simp [monsterEntries, List.getElem_map, List.getElem_range]

/-- Counterexample to claim C1 as stated: the 2^16 + 1 distinct names of
`monsterEntries`, declared through a builder, produce a schema where the
name `aName 65536` maps to id 0, but id 0 maps back to the different
name `aName 0` — `attribute`/`attribute_name` are not mutual inverses,
because `SchemaAttr(65536 as u16)` truncates to 0. -/
theorem schema_ids_truncation_cex :
    (monsterEntries.map Prod.fst).Nodup ∧
    monsterSchema.attributeId (aName 65536) = some ⟨0⟩ ∧
    monsterSchema.attribute_name ⟨0⟩ = some (aName 0) ∧
    aName 0 ≠ aName 65536 := by
  obtain ⟨hk, hget⟩ := monsterEntries_getElem 65536 (by omega)
  refine ⟨monsterEntries_names_nodup, ?_, ?_, ?_⟩
  · have hfind := lookupName_buildAttrs monsterEntries 0 65536 hk
      monsterEntries_names_nodup
    rw [hget] at hfind
    have : (0 + 65536) % u16Bound = 0 := by decide
    rw [this] at hfind
    simp [monsterSchema, monsterBuilder, Schema.attributeId,
      SchemaBuilder.build, hfind]
  · obtain ⟨h0, hget0⟩ := monsterEntries_getElem 0 (by omega)
    simp [monsterSchema, monsterBuilder, Schema.attribute_name,
      SchemaBuilder.build, List.getElem?_eq_getElem h0, hget0]
  · intro h
    have := aName_injective h
    omega

/-! ## new_attribute: duplicate rejection and the returned id -/

/-- Claim C9 (amended: the returned id is the pre-insertion length taken
mod 2^16, which equals the length itself only while fewer than 2^16
attributes are declared — see the counterexample): a duplicate name
aborts before any schema is produced; a fresh name appends the entry. -/
theorem new_attribute_spec (b : SchemaBuilder) (name : String)
    (props : SchemaProps) :
    (name ∈ b.attributes.map Prod.fst →
      b.new_attribute name props = none) ∧
    (name ∉ b.attributes.map Prod.fst →
      b.new_attribute name props =
        some (⟨b.identifier, b.attributes ++ [(name, props)]⟩,
              ⟨b.attributes.length % u16Bound⟩) ∧
      (b.attributes.length < u16Bound →
        b.new_attribute name props =
          some (⟨b.identifier, b.attributes ++ [(name, props)]⟩,
                ⟨b.attributes.length⟩))) := by
  constructor
  · intro hmem
    have : lookupName b.attributes name ≠ none := by
      rw [Ne, lookupName_eq_none]
      simpa using hmem
    cases hl : lookupName b.attributes name with
    | none => exact absurd hl this
    | some v => simp [SchemaBuilder.new_attribute, hl]
  · intro hmem
    have hl : lookupName b.attributes name = none :=
      (lookupName_eq_none b.attributes name).mpr hmem
    refine ⟨by simp [SchemaBuilder.new_attribute, hl], ?_⟩
    intro hlt
    simp [SchemaBuilder.new_attribute, hl, Nat.mod_eq_of_lt hlt]

/-- Witness for C9: a duplicate aborts; a fresh second name gets id 1. -/
theorem new_attribute_spec_witness :
    (SchemaBuilder.mk "id" [("alpha", DISPLAYED)]).new_attribute "alpha"
      RANKED = none ∧
    (SchemaBuilder.mk "id" [("alpha", DISPLAYED)]).new_attribute "beta"
      INDEXED =
      some (⟨"id", [("alpha", DISPLAYED), ("beta", INDEXED)]⟩, ⟨1⟩) := by
  refine ⟨(new_attribute_spec (SchemaBuilder.mk "id" [("alpha", DISPLAYED)])
    "alpha" RANKED).1 (by decide), ?_⟩
  have h := ((new_attribute_spec (SchemaBuilder.mk "id" [("alpha", DISPLAYED)])
    "beta" INDEXED).2 (by decide)).2 (by decide)
  exact h

/-- Counterexample to claim C9 as stated: with 2^16 attributes already
declared, a fresh name succeeds but the returned `SchemaAttr` is 0, not
the pre-insertion length 65536 — `len as u16` truncated. -/
theorem new_attribute_truncation_cex :
    aName 65536 ∉ bigBuilder.attributes.map Prod.fst ∧
    bigBuilder.attributes.length = 65536 ∧
    bigBuilder.new_attribute (aName 65536) DISPLAYED =
      some (⟨"id", bigBuilder.attributes ++ [(aName 65536, DISPLAYED)]⟩,
            ⟨0⟩) ∧
    (0 : Nat) ≠ 65536 := by
  have hlen : bigBuilder.attributes.length = 65536 := by
    simp [bigBuilder, bigEntries]
  have hattrs : bigBuilder.attributes = bigEntries := by
    simp only [bigBuilder]
  have hnotin : aName 65536 ∉ bigBuilder.attributes.map Prod.fst := by
    intro hmem
    rw [hattrs, bigEntries, List.map_map, List.mem_map] at hmem
    obtain ⟨i, hi, heq⟩ := hmem
    rw [List.mem_range] at hi
    have heq' : aName i = aName 65536 := heq
    have : i = 65536 := aName_injective heq'
    omega
  refine ⟨hnotin, hlen, ?_, by omega⟩
  have h := ((new_attribute_spec bigBuilder (aName 65536) DISPLAYED).2
    hnotin).1
  rw [hlen] at h
  have hmod : 65536 % u16Bound = 0 := by decide
  rw [hmod] at h
  simpa [bigBuilder] using h

/-! ## Round-tripping a built schema through its builder form -/

/-- Keyed enumeration starting at `j`: the shape of the `BTreeMap`
contents produced by `attributes_ordered` on a densely-numbered schema. -/
def enumKeyed {α : Type} : Nat → List α → List (Nat × α)
  | _, [] => []
  | j, a :: t => (j, a) :: enumKeyed (j + 1) t

theorem enumKeyed_map_snd {α : Type} (l : List α) :
    ∀ j, (enumKeyed j l).map Prod.snd = l := by
  induction l with
  | nil => intro j; simp [enumKeyed]
  | cons a t ih => intro j; simp [enumKeyed, ih (j + 1)]

theorem btInsert_append_of_lt {α : Type} (k : Nat) (v : α)
    (acc : List (Nat × α)) (h : ∀ p ∈ acc, p.1 < k) :
    btInsert k v acc = acc ++ [(k, v)] := by
  induction acc with
  | nil => simp [btInsert]
  | cons q t ih =>
    have hq : q.1 < k := h q (List.mem_cons_self q t)
    have ht : ∀ p ∈ t, p.1 < k := fun p hp => h p (List.mem_cons_of_mem q hp)
    obtain ⟨qk, qv⟩ := q
    simp only [btInsert]
    rw [if_neg (by omega), if_neg (by omega), ih ht]
    simp

theorem ordFold_build (full : List (String × SchemaProps))
    (hlen : full.length ≤ u16Bound) :
    ∀ (suffix : List (String × SchemaProps)) (j : Nat)
      (acc : List (Nat × (String × SchemaProps))),
    List.drop j full = suffix →
    (∀ p ∈ acc, p.1 < j) →
    List.foldl
      (fun acc p =>
        match full[p.2]? with
        | some q => btInsert p.2 (p.1, q.2) acc
        | none => acc)
      acc (buildAttrs j suffix) = acc ++ enumKeyed j suffix := by
  intro suffix
  induction suffix with
  | nil =>
    intro j acc hdrop hacc
    simp [buildAttrs, enumKeyed]
  | cons e t ih =>
    intro j acc hdrop hacc
    have hj : j < full.length := by
      by_contra hge
      push_neg at hge
      rw [List.drop_eq_nil_of_le hge] at hdrop
      exact List.cons_ne_nil e t hdrop.symm
    have hfullj : full[j]? = some e := by
      have hd := List.getElem?_drop full j 0
      rw [hdrop] at hd
      simpa using hd.symm
    have hjmod : j % u16Bound = j :=
      Nat.mod_eq_of_lt (Nat.lt_of_lt_of_le hj hlen)
    have hdrop' : List.drop (j + 1) full = t := by
      rw [← List.tail_drop, hdrop]
      rfl
    simp only [buildAttrs, List.foldl_cons, hjmod, hfullj]
    rw [btInsert_append_of_lt j (e.1, e.2) acc hacc]
    rw [ih (j + 1) (acc ++ [(j, (e.1, e.2))]) hdrop' ?side]
    case side =>
      intro p hp
      cases List.mem_append.mp hp with
      | inl hmem => exact Nat.lt_succ_of_lt (hacc p hmem)
      | inr hmem =>
        simp only [List.mem_singleton] at hmem
        subst hmem
        omega
    simp [enumKeyed]

theorem attributes_ordered_build (b : SchemaBuilder)
    (hlen : b.attributes.length ≤ u16Bound) :
    (b.build).attributes_ordered = b.attributes := by
  show (List.foldl _ [] (b.build).attrs).map Prod.snd = b.attributes
  have hattrs : (b.build).attrs = buildAttrs 0 b.attributes := by
    simp [SchemaBuilder.build]
  have hprops : (b.build).propsData = b.attributes := by
    simp [SchemaBuilder.build]
  rw [hattrs, hprops]
  rw [ordFold_build b.attributes hlen b.attributes 0 [] (by simp) (by simp)]
  simp [enumKeyed_map_snd]

theorem to_builder_build (b : SchemaBuilder)
    (hlen : b.attributes.length ≤ u16Bound) :
    (b.build).to_builder = b := by
  unfold Schema.to_builder
  rw [attributes_ordered_build b hlen]
  simp [SchemaBuilder.build]

/-! ## Round-trip of the three wire formats on builders -/

theorem decodeBinEntries_encode (l : List (String × SchemaProps)) :
    decodeBinEntries l.length ((l.map encodeBinEntry).flatten) = some l := by
  induction l with
  | nil => simp [decodeBinEntries]
  | cons e t ih =>
    obtain ⟨name, d, i, r⟩ := e
    simp [encodeBinEntry, decodeBinEntries, ih]

theorem decodeBin_encodeBin (b : SchemaBuilder) :
    decodeBin (encodeBin b) = some b := by
  simp [encodeBin, decodeBin, decodeBinEntries_encode]

theorem decodeFlags_encode (d i r : Bool) :
    decodeFlags [("displayed", d), ("indexed", i), ("ranked", r)] =
      ⟨d, i, r⟩ := by
  simp [decodeFlags, lookupName]

theorem textEntries_roundtrip (l : List (String × SchemaProps)) :
    l.map ((fun sec => (sec.1, decodeFlags sec.2)) ∘
      (fun e => (e.1, [("displayed", e.2.displayed),
        ("indexed", e.2.indexed), ("ranked", e.2.ranked)]))) = l := by
  induction l with
  | nil => rfl
  | cons e t ih =>
    obtain ⟨name, d, i, r⟩ := e
    simp only [List.map_cons, Function.comp_apply, ih, decodeFlags_encode]

theorem decodeText_encodeText (b : SchemaBuilder) :
    decodeText (encodeText b) = some b := by
  simp [encodeText, decodeText, List.map_map, textEntries_roundtrip]

theorem decodeJsonProps_encode (p : SchemaProps) :
    decodeJsonProps (encodeJsonProps p) = some p := by
  obtain ⟨d, i, r⟩ := p
  simp [encodeJsonProps, decodeJsonProps, decodeJsonFlag, lookupName]

theorem decodeJsonEntries_encode (l : List (String × SchemaProps)) :
    decodeJsonEntries (l.map (fun e => (e.1, encodeJsonProps e.2))) =
      some l := by
  induction l with
  | nil => simp [decodeJsonEntries]
  | cons e t ih =>
    simp [decodeJsonEntries, decodeJsonProps_encode, ih]

theorem decodeJson_encodeJson (b : SchemaBuilder) :
    decodeJson (encodeJson b) = some b := by
  simp [encodeJson, decodeJson, decodeJsonEntries_encode]

/-- Claim C2 (amended: for built schemas with at most 2^16 attributes —
beyond that the u16 id truncation makes `attributes_ordered` collapse
colliding ids, see the counterexample): serializing a built `Schema` and
deserializing the result reproduces it, identifier, names, per-name
props and declaration order included, in each of the three supported
encodings. -/
theorem schema_serialization_roundtrip (ident : String)
    (entries : List (String × SchemaProps))
    (_hnd : (entries.map Prod.fst).Nodup)
    (hlen : entries.length ≤ u16Bound) :
    Schema.deserializeBin
        (Schema.serializeBin (SchemaBuilder.mk ident entries).build) =
      some (SchemaBuilder.mk ident entries).build ∧
    Schema.deserializeText
        (Schema.serializeText (SchemaBuilder.mk ident entries).build) =
      some (SchemaBuilder.mk ident entries).build ∧
    Schema.deserializeJson
        (Schema.serializeJson (SchemaBuilder.mk ident entries).build) =
      some (SchemaBuilder.mk ident entries).build := by
  have htb : ((SchemaBuilder.mk ident entries).build).to_builder =
      SchemaBuilder.mk ident entries :=
    to_builder_build (SchemaBuilder.mk ident entries) (by simpa using hlen)
  refine ⟨?_, ?_, ?_⟩
  · unfold Schema.deserializeBin Schema.serializeBin
    rw [decodeBin_encodeBin, htb]
    rfl
  · unfold Schema.deserializeText Schema.serializeText
    rw [decodeText_encodeText, htb]
    rfl
  · unfold Schema.deserializeJson Schema.serializeJson
    rw [decodeJson_encodeJson, htb]
    rfl

/-- Witness for C2 at a concrete two-attribute schema. -/
theorem schema_serialization_roundtrip_witness :
    Schema.deserializeBin
        (Schema.serializeBin
          (SchemaBuilder.mk "id"
            [("alpha", DISPLAYED), ("beta", INDEXED)]).build) =
      some (SchemaBuilder.mk "id"
        [("alpha", DISPLAYED), ("beta", INDEXED)]).build ∧
    Schema.deserializeJson
        (Schema.serializeJson
          (SchemaBuilder.mk "id"
            [("alpha", DISPLAYED), ("beta", INDEXED)]).build) =
      some (SchemaBuilder.mk "id"
        [("alpha", DISPLAYED), ("beta", INDEXED)]).build := by
  have h := schema_serialization_roundtrip "id"
    [("alpha", DISPLAYED), ("beta", INDEXED)] (by decide) (by decide)
  exact ⟨h.1, h.2.2⟩

/-! ## The round-trip fails past the u16 boundary -/

theorem btInsert_key_mem {α : Type} (k : Nat) (v : α)
    (l : List (Nat × α)) :
    ∀ q ∈ btInsert k v l, q.1 = k ∨ q.1 ∈ l.map Prod.fst := by
  induction l with
  | nil =>
    intro q hq
    simp only [btInsert, List.mem_singleton] at hq
    subst hq
    exact Or.inl rfl
  | cons p t ih =>
    intro q hq
    obtain ⟨pk, pv⟩ := p
    simp only [btInsert] at hq
    simp only [List.map_cons, List.mem_cons]
    by_cases h1 : k < pk
    · rw [if_pos h1] at hq
      simp only [List.mem_cons] at hq
      rcases hq with hq | hq | hq
      · exact Or.inl (by rw [hq])
      · exact Or.inr (Or.inl (by rw [hq]))
      · exact Or.inr (Or.inr (List.mem_map_of_mem Prod.fst hq))
    · rw [if_neg h1] at hq
      by_cases h2 : k = pk
      · rw [if_pos h2] at hq
        simp only [List.mem_cons] at hq
        rcases hq with hq | hq
        · exact Or.inl (by rw [hq])
        · exact Or.inr (Or.inr (List.mem_map_of_mem Prod.fst hq))
      · rw [if_neg h2] at hq
        simp only [List.mem_cons] at hq
        rcases hq with hq | hq
        · exact Or.inr (Or.inl (by rw [hq]))
        · rcases ih q hq with h | h
          · exact Or.inl h
          · exact Or.inr (Or.inr h)

theorem btInsert_pairwise {α : Type} (k : Nat) (v : α)
    (l : List (Nat × α))
    (h : l.Pairwise (fun p q => p.1 < q.1)) :
    (btInsert k v l).Pairwise (fun p q => p.1 < q.1) := by
  induction l with
  | nil => simp [btInsert]
  | cons p t ih =>
    obtain ⟨pk, pv⟩ := p
    rw [List.pairwise_cons] at h
    simp only [btInsert]
    by_cases h1 : k < pk
    · rw [if_pos h1]
      rw [List.pairwise_cons]
      refine ⟨?_, List.pairwise_cons.mpr h⟩
      intro q hq
      simp only [List.mem_cons] at hq
      rcases hq with hq | hq
      · rw [hq]; exact h1
      · exact Nat.lt_trans h1 (h.1 q hq)
    · rw [if_neg h1]
      by_cases h2 : k = pk
      · rw [if_pos h2]
        rw [List.pairwise_cons]
        exact ⟨fun q hq => h2 ▸ h.1 q hq, h.2⟩
      · rw [if_neg h2]
        rw [List.pairwise_cons]
        refine ⟨?_, ih h.2⟩
        intro q hq
        rcases btInsert_key_mem k v t q hq with hk | hmem
        · rw [hk]; omega
        · simp only [List.mem_map] at hmem
          obtain ⟨p', hp', hfst⟩ := hmem
          rw [← hfst]
          exact h.1 p' hp'

theorem ordered_fold_bounded (full : List (String × SchemaProps)) :
    ∀ (attrsL : List (String × Nat))
      (acc : List (Nat × (String × SchemaProps))),
    (∀ p ∈ attrsL, p.2 < u16Bound) →
    acc.Pairwise (fun p q => p.1 < q.1) →
    (∀ p ∈ acc, p.1 < u16Bound) →
    (List.foldl
      (fun acc p =>
        match full[p.2]? with
        | some q => btInsert p.2 (p.1, q.2) acc
        | none => acc)
      acc attrsL).Pairwise (fun p q => p.1 < q.1) ∧
    (∀ p ∈ List.foldl
      (fun acc p =>
        match full[p.2]? with
        | some q => btInsert p.2 (p.1, q.2) acc
        | none => acc)
      acc attrsL, p.1 < u16Bound) := by
  intro attrsL
  induction attrsL with
  | nil =>
    intro acc hkeys hsort hbound
    exact ⟨hsort, hbound⟩
  | cons e t ih =>
    intro acc hkeys hsort hbound
    have hkey : e.2 < u16Bound := hkeys e (List.mem_cons_self e t)
    have hkeys' : ∀ p ∈ t, p.2 < u16Bound :=
      fun p hp => hkeys p (List.mem_cons_of_mem e hp)
    simp only [List.foldl_cons]
    cases hfe : full[e.2]? with
    | none => exact ih acc hkeys' hsort hbound
    | some q =>
      refine ih (btInsert e.2 (e.1, q.2) acc) hkeys'
        (btInsert_pairwise e.2 (e.1, q.2) acc hsort) ?_
      intro p hp
      rcases btInsert_key_mem e.2 (e.1, q.2) acc p hp with hk | hmem
      · rw [hk]; exact hkey
      · simp only [List.mem_map] at hmem
        obtain ⟨p', hp', hfst⟩ := hmem
        rw [← hfst]
        exact hbound p' hp'

theorem pairwise_lt_keys_length_le {α : Type} (l : List (Nat × α)) (B : Nat)
    (hs : l.Pairwise (fun p q => p.1 < q.1))
    (hb : ∀ p ∈ l, p.1 < B) : l.length ≤ B := by
  have hkeys : (l.map Prod.fst).Pairwise (fun a b => a < b) :=
    List.pairwise_map.mpr hs
  have hnd : (l.map Prod.fst).Nodup :=
    hkeys.imp (fun h => Nat.ne_of_lt h)
  have hcard : (l.map Prod.fst).toFinset.card = l.length := by
    rw [List.toFinset_card_of_nodup hnd, List.length_map]
  have hsub : (l.map Prod.fst).toFinset ⊆ Finset.range B := by
    intro x hx
    rw [List.mem_toFinset, List.mem_map] at hx
    obtain ⟨p, hp, hfst⟩ := hx
    rw [Finset.mem_range, ← hfst]
    exact hb p hp
  have := Finset.card_le_card hsub
  rw [hcard, Finset.card_range] at this
  exact this

/-- For every built schema — no matter how many attributes its builder
held — `attributes_ordered` has at most 2^16 entries: the `BTreeMap` is
keyed by the truncated u16 id. -/
theorem attributes_ordered_length_le (b : SchemaBuilder) :
    (b.build).attributes_ordered.length ≤ u16Bound := by
  show ((List.foldl _ [] (b.build).attrs).map Prod.snd).length ≤ u16Bound
  have hattrs : (b.build).attrs = buildAttrs 0 b.attributes := by
    simp [SchemaBuilder.build]
  have hprops : (b.build).propsData = b.attributes := by
    simp [SchemaBuilder.build]
  rw [hattrs, hprops, List.length_map]
  have h := ordered_fold_bounded b.attributes (buildAttrs 0 b.attributes) []
    (fun p hp => buildAttrs_key_lt b.attributes 0 p hp)
    (List.Pairwise.nil) (by simp)
  exact pairwise_lt_keys_length_le _ u16Bound h.1 h.2

/-- Counterexample to claim C2 as stated: the schema built from 2^16 + 1
distinct attributes does not survive any of the three round-trips — its
serialized builder form has at most 2^16 entries, one id bucket having
collapsed under the u16 truncation. -/
theorem schema_roundtrip_truncation_cex :
    monsterSchema.propsData.length = 65537 ∧
    Schema.deserializeBin (Schema.serializeBin monsterSchema) ≠
      some monsterSchema ∧
    Schema.deserializeText (Schema.serializeText monsterSchema) ≠
      some monsterSchema ∧
    Schema.deserializeJson (Schema.serializeJson monsterSchema) ≠
      some monsterSchema := by
  have hlen : monsterSchema.propsData.length = 65537 := by
    have h1 : monsterSchema.propsData = monsterEntries := by
      simp only [monsterSchema, monsterBuilder, SchemaBuilder.build]
    rw [h1]
    simp only [monsterEntries, List.length_map, List.length_range]
  have hshort : ((monsterSchema.to_builder).build).propsData.length ≤
      u16Bound := by
    have h1 : ((monsterSchema.to_builder).build).propsData =
        monsterSchema.to_builder.attributes := by
      simp [SchemaBuilder.build]
    have h2 : monsterSchema.to_builder.attributes =
        monsterSchema.attributes_ordered := by
      simp [Schema.to_builder]
    rw [h1, h2]
    simp only [monsterSchema, monsterBuilder]
    exact attributes_ordered_length_le ⟨"id", monsterEntries⟩
  have hne : (monsterSchema.to_builder).build ≠ monsterSchema := by
    intro h
    rw [h] at hshort
    rw [hlen] at hshort
    simp [u16Bound] at hshort
  refine ⟨hlen, ?_, ?_, ?_⟩
  · unfold Schema.deserializeBin Schema.serializeBin
    rw [decodeBin_encodeBin]
    simpa using hne
  · unfold Schema.deserializeText Schema.serializeText
    rw [decodeText_encodeText]
    simpa using hne
  · unfold Schema.deserializeJson Schema.serializeJson
    rw [decodeJson_encodeJson]
    simpa using hne

end Meili
